import Mathlib

/-
Verification of the data-harvester repository: a shallow embedding of the
Harvest Orchestration and Reconciliation Engine.

Sources embedded:
  * src/src/api/capital.py        fetch_capital_data_range (clamping + guard)
  * src/src/data/normalizer.py    normalize_capital_df, normalize_yahoo_df
  * src/src/data/harvester.py     run_harvest_logic (modular orchestrator)
  * src/core_logic.py             run_harvest_logic (monolithic orchestrator),
                                  fetch_capital_data_range (identical to the
                                  modular one), normalizers (identical)

Modelling conventions:
  * Times are integers counting minutes (UTC).  The 16-hour lookback horizon
    is 960 minutes and the one-minute nudge in the start clamp is +1.
  * pandas DataFrames of candle rows become lists of a Candle structure; an
    empty DataFrame is the empty list.  Row order of a frame is the order the
    provider returned.
  * pandas sort_values over the timestamp column is modelled as a stable
    ascending sort; drop_duplicates on the timestamp key with keep equal to
    last keeps, for each key, the last occurrence in the sorted order.
  * The session-gap thresholds in the source are float comparisons
    rows < expected * 0.9 with expected in {330, 390, 240}; each product
    330 * 0.9, 390 * 0.9, 240 * 0.9 is exactly representable as the IEEE
    double 297.0, 351.0, 216.0, so the comparison is the integer comparison
    10 * rows < 9 * expected used here.
  * Network traffic and credentials are an environment: a function giving
    the raw rows the wire would return for a price query, the raw rows the
    Yahoo download yields for a ticker on the (fixed) target date, whether
    create_capital_session produced tokens, and the current clock value.
    Exceptions inside an adapter degrade to an empty result in the source
    and are modelled by the environment returning the empty list.
-/

namespace DataHarvester

/-- Raw provider row before normalization: SnapshotTime/Datetime plus OHLCV.
The field opn stands for the source column named open, which is a reserved
word in Lean. -/
structure Raw where
  ts : Int
  opn : Int
  high : Int
  low : Int
  close : Int
  volume : Option Int
deriving DecidableEq

/-- Canonical candle schema SCHEMA_COLS = [timestamp, symbol, open, high,
low, close, volume, session]. -/
structure Candle where
  timestamp : Int
  symbol : String
  opn : Int
  high : Int
  low : Int
  close : Int
  volume : Option Int
  session : String
deriving DecidableEq

/-- Result of fetch_capital_data_range: the returned frame plus whether the
HTTP price request was issued (netCalled is bookkeeping for the proofs; the
source returns only the frame). -/
structure CapFetch where
  rows : List Raw
  netCalled : Bool
deriving DecidableEq

/-- Inventory value for one ticker: db_map[ticker] = {epic, strategy}. -/
structure Rules where
  epic : String
  strategy : String
deriving DecidableEq

/-- Session boundaries in UTC minutes for the target date, as computed at the
top of run_harvest_logic: pre-market 04:00-09:30 ET, regular 09:30-16:00 ET,
post-market 16:00-20:00 ET.  The source aliases reg_start = pm_end and
post_start = reg_end, so only the four distinct instants are stored. -/
structure Windows where
  pmStart : Int
  pmEnd : Int
  regEnd : Int
  postEnd : Int
deriving DecidableEq

/-- The run environment: presence of Capital.com session tokens, the clock,
the wire response to a Capital.com price query (epic, from, to), and the
Yahoo download result for a ticker on the target date. -/
structure Env where
  cst : Bool
  now : Int
  capNet : String → Int → Int → List Raw
  yahoo : String → List Raw

/-- Lookback horizon of the Capital.com API: 16 hours in minutes. -/
def lookbackMinutes : Int := 960

/-- Start clamp of fetch_capital_data_range: a start more than 16 hours
behind now is moved to the horizon boundary plus one minute. -/
def clampStart (now s : Int) : Int :=
  if s < now - lookbackMinutes then now - lookbackMinutes + 1 else s

/-- End clamp of fetch_capital_data_range: an end in the future is moved
back to now. -/
def clampEnd (now e : Int) : Int :=
  if e > now then now else e

/-- fetch_capital_data_range from src/src/api/capital.py (the copy in
core_logic.py is identical): clamp the start, return empty with no request
if the start-clamped window is inverted, then clamp the end and issue the
price request.  Network failure degrading to an empty frame is modelled by
net returning the empty list. -/
def fetch_capital_data_range (net : Int → Int → List Raw) (now s e : Int) : CapFetch :=
  let s1 := clampStart now s
  if s1 ≥ e then ⟨[], false⟩
  else ⟨net s1 (clampEnd now e), true⟩

/-- Rows of a Capital.com fetch as the orchestrator sees them. -/
def capFetchRows (env : Env) (epic : String) (s e : Int) : List Raw :=
  (fetch_capital_data_range (env.capNet epic) env.now s e).rows

/-- normalize_capital_df: rename the raw columns to the canonical schema and
attach the symbol and the session label; an empty input maps to an empty
frame. -/
def normalize_capital_df (rows : List Raw) (symbol sessionLabel : String) : List Candle :=
  rows.map (fun r => ⟨r.ts, symbol, r.opn, r.high, r.low, r.close, r.volume, sessionLabel⟩)

/-- normalize_yahoo_df: rename the raw columns, convert the timestamp to
UTC (the model times are already UTC), attach the symbol, and label the
session REG; an empty input maps to an empty frame. -/
def normalize_yahoo_df (rows : List Raw) (symbol : String) : List Candle :=
  rows.map (fun r => ⟨r.ts, symbol, r.opn, r.high, r.low, r.close, r.volume, "REG"⟩)

/-- Containment of one character sequence at the head of another. -/
def segAt : List Char → List Char → Bool
  | [], _ => true
  | _ :: _, [] => false
  | a :: xs, b :: ys => a == b && segAt xs ys

/-- Containment of one character sequence anywhere inside another. -/
def segIn (needle : List Char) : List Char → Bool
  | [] => needle.isEmpty
  | b :: ys => segAt needle (b :: ys) || segIn needle ys

/-- The Python substring test sub in hay used by core_logic.py on the
harvest-mode and provenance strings. -/
def strHasSub (hay sub : String) : Bool :=
  segIn sub.toList hay.toList

/-- Stable insertion of a candle into a timestamp-sorted list: the new
candle goes before the first element with an equal or later timestamp. -/
def insertTs (c : Candle) : List Candle → List Candle
  | [] => [c]
  | d :: ds => if c.timestamp ≤ d.timestamp then c :: d :: ds else d :: insertTs c ds

/-- Stable ascending sort by timestamp, modelling sort_values. -/
def sortByTs : List Candle → List Candle
  | [] => []
  | c :: cs => insertTs c (sortByTs cs)

/-- drop_duplicates on the timestamp key with keep equal to last: an element
is kept exactly when no later element shares its timestamp. -/
def dedupKeepLast : List Candle → List Candle
  | [] => []
  | c :: rest =>
    if rest.any (fun d => d.timestamp == c.timestamp) then dedupKeepLast rest
    else c :: dedupKeepLast rest

/-- The merge step of run_harvest_logic: keep the non-empty per-session
frames, concatenate, sort by timestamp, and deduplicate keeping the last
occurrence. -/
def mergeFrames (dfs : List (List Candle)) : List Candle :=
  dedupKeepLast (sortByTs ((dfs.filter (fun d => !d.isEmpty)).flatten))

/-- Rows of a frame carrying a given timestamp key. -/
def keyRows (t : Int) (l : List Candle) : List Candle :=
  l.filter (fun c => c.timestamp == t)

/-- Expected candle count for the pre-market session (5.5 hours of minutes). -/
def expectedPre : Nat := 330

/-- Expected candle count for the regular session (6.5 hours of minutes). -/
def expectedReg : Nat := 390

/-- Expected candle count for the post-market session (4 hours of minutes). -/
def expectedPost : Nat := 240

/-- One per-instrument report row of the modular orchestrator:
Ticker, Mode, Pre, Reg, Post, Total, Status. -/
structure ReportRow where
  ticker : String
  mode : String
  pre : Nat
  reg : Nat
  post : Nat
  total : Nat
  status : String
deriving DecidableEq

/-- One per-instrument report row of the monolithic orchestrator in
core_logic.py, which has no post-market column. -/
structure CoreReportRow where
  ticker : String
  mode : String
  pre : Nat
  reg : Nat
  total : Nat
  status : String
deriving DecidableEq

/-- Outcome of the regular-session phase for one instrument: the frame, the
provenance label mode_str, and the windows passed to fetch_capital_data_range
during this phase (bookkeeping for the proofs). -/
structure RegOutcome where
  df : List Candle
  modeStr : String
  capCalls : List (Int × Int)
deriving DecidableEq

/-- Gap list of the modular orchestrator: a session is gappy when its mode
is selected for reporting and the observed count is below 90 percent of the
expected count (exact integer form of the float comparison, see header). -/
def gapsHarv (mode : String) (pre reg post : Nat) : List String :=
  (if (mode = "🚀 Full Day" ∨ mode = "🌙 Pre-Market Only") ∧ 10 * pre < 9 * expectedPre
   then ["Pre"] else [])
  ++ (if (mode = "🚀 Full Day" ∨ mode = "☀️ Regular Session Only") ∧ 10 * reg < 9 * expectedReg
      then ["Reg"] else [])
  ++ (if (mode = "🚀 Full Day" ∨ mode = "🌆 Post-Market Only") ∧ 10 * post < 9 * expectedPost
      then ["Post"] else [])

/-- Status cell of the modular orchestrator: Failed when the merged total is
zero, else Gappy with the gap list, else Complete; a Complete status backed
by a provenance label containing Fallback becomes the qualified variant. -/
def statusIconHarv (mode modeStr : String) (pre reg post total : Nat) : String :=
  let gaps := gapsHarv mode pre reg post
  let base :=
    if total = 0 then "❌ Failed"
    else if gaps.isEmpty then "✅ Complete"
    else "⚠️ Gappy (" ++ String.intercalate ", " gaps ++ ")"
  if strHasSub modeStr "Fallback" && (base == "✅ Complete") then "✅ (Fallback)" else base

/-- Gap list of core_logic.py: only pre and regular sessions are scored. -/
def gapsCore (mode : String) (pre reg : Nat) : List String :=
  (if (mode = "🚀 Full Day" ∨ mode = "🌙 Pre-Market Only") ∧ 10 * pre < 9 * expectedPre
   then ["Pre"] else [])
  ++ (if (mode = "🚀 Full Day" ∨ mode = "☀️ Regular Session Only") ∧ 10 * reg < 9 * expectedReg
      then ["Reg"] else [])

/-- Status cell of core_logic.py. -/
def statusIconCore (mode modeStr : String) (pre reg total : Nat) : String :=
  let gaps := gapsCore mode pre reg
  let base :=
    if total = 0 then "❌ Failed"
    else if gaps.isEmpty then "✅ Complete"
    else "⚠️ Gappy (" ++ String.intercalate ", " gaps ++ ")"
  if strHasSub modeStr "Fallback" && (base == "✅ Complete") then "✅ (Fallback)" else base

/-- Pre-market phase of the modular orchestrator: fetched via Capital.com
unless the mode is Regular Session Only or Post-Market Only, and only with a
session token. -/
def preFrameHarv (env : Env) (ticker epic : String) (w : Windows) (mode : String) : List Candle :=
  if ¬ (mode = "☀️ Regular Session Only" ∨ mode = "🌆 Post-Market Only") ∧ env.cst
  then normalize_capital_df (capFetchRows env epic w.pmStart w.pmEnd) ticker "PRE"
  else []

/-- Regular-session phase of the modular orchestrator (harvester.py): the
strategy CAPITAL_ONLY goes straight to Capital.com; any other strategy is the
HYBRID path, Yahoo first with a Capital.com fallback over the same window.
When both the primary and the fallback are empty the source only logs and
leaves mode_str at the bare strategy value. -/
def regResultHarv (env : Env) (ticker epic strategy : String) (w : Windows) (mode : String) :
    RegOutcome :=
  if mode = "🌙 Pre-Market Only" ∨ mode = "🌆 Post-Market Only" then ⟨[], strategy, []⟩
  else if strategy = "CAPITAL_ONLY" then
    if env.cst then
      ⟨normalize_capital_df (capFetchRows env epic w.pmEnd w.regEnd) ticker "REG",
       "CAPITAL_ONLY", [(w.pmEnd, w.regEnd)]⟩
    else ⟨[], "CAPITAL_ONLY", []⟩
  else
    let rawY := env.yahoo ticker
    if !rawY.isEmpty then ⟨normalize_yahoo_df rawY ticker, "HYBRID (Yahoo)", []⟩
    else if env.cst then
      let rawFb := capFetchRows env epic w.pmEnd w.regEnd
      if !rawFb.isEmpty then
        ⟨normalize_capital_df rawFb ticker "REG", "HYBRID (Fallback)", [(w.pmEnd, w.regEnd)]⟩
      else ⟨[], strategy, [(w.pmEnd, w.regEnd)]⟩
    else ⟨[], strategy, []⟩

/-- Post-market phase of the modular orchestrator. -/
def postFrameHarv (env : Env) (ticker epic : String) (w : Windows) (mode : String) : List Candle :=
  if ¬ (mode = "🌙 Pre-Market Only" ∨ mode = "☀️ Regular Session Only") ∧ env.cst
  then normalize_capital_df (capFetchRows env epic w.regEnd w.postEnd) ticker "POST"
  else []

/-- Per-instrument body of the modular orchestrator: the three session
phases, the merge, and the report row. -/
def processTickerHarv (env : Env) (ticker : String) (rules : Rules) (w : Windows)
    (mode : String) : ReportRow × List Candle :=
  let pre := preFrameHarv env ticker rules.epic w mode
  let ro := regResultHarv env ticker rules.epic rules.strategy w mode
  let post := postFrameHarv env ticker rules.epic w mode
  let combined := mergeFrames [pre, ro.df, post]
  (⟨ticker, ro.modeStr, pre.length, ro.df.length, post.length, combined.length,
    statusIconHarv mode ro.modeStr pre.length ro.df.length post.length combined.length⟩,
   combined)

/-- Instrument loop of the modular orchestrator: tickers missing from the
inventory are skipped with a warning; per-instrument candles are appended in
processing order (an empty merge contributes nothing, as in the source where
only non-empty frames are appended to all_data). -/
def harvLoop (env : Env) (dbMap : String → Option Rules) (w : Windows) (mode : String) :
    List String → List Candle × List ReportRow
  | [] => ([], [])
  | t :: ts =>
    let rest := harvLoop env dbMap w mode ts
    match dbMap t with
    | none => rest
    | some rules =>
      let out := processTickerHarv env t rules w mode
      (out.2 ++ rest.1, out.1 :: rest.2)

/-- run_harvest_logic of src/src/data/harvester.py: need_capital is the
literal True, so a missing session token aborts every run with empty
candle and report outputs before any instrument is processed. -/
def harvRun (env : Env) (tickers : List String) (dbMap : String → Option Rules)
    (w : Windows) (mode : String) : List Candle × List ReportRow :=
  if !env.cst then ([], [])
  else harvLoop env dbMap w mode tickers

/-- need_capital of core_logic.py: true when the mode string does not
contain Regular Session Only, or some selected in-inventory ticker has the
CAPITAL_ONLY strategy. -/
def coreNeedCapital (tickers : List String) (dbMap : String → Option Rules)
    (mode : String) : Bool :=
  !(strHasSub mode "Regular Session Only")
  || tickers.any (fun t =>
       match dbMap t with
       | some r => r.strategy == "CAPITAL_ONLY"
       | none => false)

/-- Pre-market phase of core_logic.py (substring guard on the mode). -/
def preFrameCore (env : Env) (ticker epic : String) (w : Windows) (mode : String) : List Candle :=
  if !(strHasSub mode "Regular Session Only") && env.cst
  then normalize_capital_df (capFetchRows env epic w.pmStart w.pmEnd) ticker "PRE"
  else []

/-- Regular-session phase of core_logic.py: as in the modular version but
with substring guards, and with the provenance label HYBRID (Failed) when
the Yahoo primary is empty and the fallback is empty or skipped. -/
def regResultCore (env : Env) (ticker epic strategy : String) (w : Windows) (mode : String) :
    RegOutcome :=
  if !(strHasSub mode "Pre-Market Only") then
    if strategy = "CAPITAL_ONLY" then
      if env.cst then
        ⟨normalize_capital_df (capFetchRows env epic w.pmEnd w.regEnd) ticker "REG",
         "CAPITAL_ONLY", [(w.pmEnd, w.regEnd)]⟩
      else ⟨[], "CAPITAL_ONLY", []⟩
    else
      let rawY := env.yahoo ticker
      if !rawY.isEmpty then ⟨normalize_yahoo_df rawY ticker, "HYBRID (Yahoo)", []⟩
      else if env.cst then
        let rawFb := capFetchRows env epic w.pmEnd w.regEnd
        if !rawFb.isEmpty then
          ⟨normalize_capital_df rawFb ticker "REG", "HYBRID (Fallback)", [(w.pmEnd, w.regEnd)]⟩
        else ⟨[], "HYBRID (Failed)", [(w.pmEnd, w.regEnd)]⟩
      else ⟨[], "HYBRID (Failed)", []⟩
  else ⟨[], strategy, []⟩

/-- Per-instrument body of core_logic.py: two session phases and the merge. -/
def coreProcessTicker (env : Env) (ticker : String) (rules : Rules) (w : Windows)
    (mode : String) : CoreReportRow × List Candle :=
  let pre := preFrameCore env ticker rules.epic w mode
  let ro := regResultCore env ticker rules.epic rules.strategy w mode
  let combined := mergeFrames [pre, ro.df]
  (⟨ticker, ro.modeStr, pre.length, ro.df.length, combined.length,
    statusIconCore mode ro.modeStr pre.length ro.df.length combined.length⟩,
   combined)

/-- Instrument loop of core_logic.py. -/
def coreLoop (env : Env) (dbMap : String → Option Rules) (w : Windows) (mode : String) :
    List String → List Candle × List CoreReportRow
  | [] => ([], [])
  | t :: ts =>
    let rest := coreLoop env dbMap w mode ts
    match dbMap t with
    | none => rest
    | some rules =>
      let out := coreProcessTicker env t rules w mode
      (out.2 ++ rest.1, out.1 :: rest.2)

/-- run_harvest_logic of core_logic.py: abort with empty outputs exactly
when a credential is needed and missing, otherwise run the instrument loop. -/
def coreRun (env : Env) (tickers : List String) (dbMap : String → Option Rules)
    (w : Windows) (mode : String) : List Candle × List CoreReportRow :=
  if coreNeedCapital tickers dbMap mode && !env.cst then ([], [])
  else coreLoop env dbMap w mode tickers

theorem insertTs_perm (c : Candle) (l : List Candle) : (insertTs c l).Perm (c :: l) := by
  induction l with
  | nil => simp [insertTs]
  | cons d ds ih =>
    by_cases h : c.timestamp ≤ d.timestamp
    · simp [insertTs, h]
    · rw [insertTs, if_neg h]
      exact (ih.cons d).trans (List.Perm.swap c d ds)

theorem sortByTs_perm (l : List Candle) : (sortByTs l).Perm l := by
  induction l with
  | nil => simp [sortByTs]
  | cons c cs ih => exact (insertTs_perm c (sortByTs cs)).trans (ih.cons c)

theorem insertTs_sorted (c : Candle) (l : List Candle)
    (h : l.Pairwise (fun a b => a.timestamp ≤ b.timestamp)) :
    (insertTs c l).Pairwise (fun a b => a.timestamp ≤ b.timestamp) := by
  induction l with
  | nil => simp [insertTs]
  | cons d ds ih =>
    rcases List.pairwise_cons.mp h with ⟨hd, hds⟩
    by_cases hc : c.timestamp ≤ d.timestamp
    · rw [insertTs, if_pos hc]
      refine List.pairwise_cons.mpr ⟨?_, h⟩
      intro x hx
      rcases List.mem_cons.mp hx with rfl | hx
      · exact hc
      · exact le_trans hc (hd x hx)
    · rw [insertTs, if_neg hc]
      refine List.pairwise_cons.mpr ⟨?_, ih hds⟩
      intro x hx
      have hx2 : x ∈ c :: ds := (insertTs_perm c ds).mem_iff.mp hx
      rcases List.mem_cons.mp hx2 with rfl | hx2
      · exact le_of_lt (not_le.mp hc)
      · exact hd x hx2

theorem sortByTs_sorted (l : List Candle) :
    (sortByTs l).Pairwise (fun a b => a.timestamp ≤ b.timestamp) := by
  induction l with
  | nil => simp [sortByTs]
  | cons c cs ih => exact insertTs_sorted c _ ih

theorem keyRows_cons (t : Int) (c : Candle) (l : List Candle) :
    keyRows t (c :: l) =
      if c.timestamp == t then c :: keyRows t l else keyRows t l := by
  simp only [keyRows, List.filter_cons]

theorem keyRows_insertTs (t : Int) (c : Candle) (l : List Candle) :
    keyRows t (insertTs c l) =
      if c.timestamp == t then c :: keyRows t l else keyRows t l := by
  induction l with
  | nil =>
    rw [insertTs, keyRows_cons]
  | cons d ds ih =>
    by_cases hc : c.timestamp ≤ d.timestamp
    · rw [insertTs, if_pos hc, keyRows_cons]
    · rw [insertTs, if_neg hc, keyRows_cons, ih, keyRows_cons]
      by_cases hct : (c.timestamp == t) = true
      · have h1 : c.timestamp = t := beq_iff_eq.mp hct
        have hd : (d.timestamp == t) = false := by
          refine beq_eq_false_iff_ne.mpr ?_
          intro hEq
          exact hc (le_of_eq (h1.trans hEq.symm))
        simp [hct, hd]
      · by_cases hd : (d.timestamp == t) = true <;> simp [hct, hd]

theorem keyRows_sortByTs (t : Int) (l : List Candle) :
    keyRows t (sortByTs l) = keyRows t l := by
  induction l with
  | nil => rfl
  | cons c cs ih =>
    rw [sortByTs, keyRows_insertTs, ih, keyRows_cons]

theorem dedupKeepLast_sublist (l : List Candle) : List.Sublist (dedupKeepLast l) l := by
  induction l with
  | nil => exact List.nil_sublist []
  | cons c rest ih =>
    rw [dedupKeepLast]
    by_cases h : (rest.any (fun d => d.timestamp == c.timestamp)) = true
    · rw [if_pos h]; exact List.Sublist.cons c ih
    · rw [if_neg h]; exact List.Sublist.cons₂ c ih

theorem dedupKeepLast_pairwise (l : List Candle) :
    (dedupKeepLast l).Pairwise (fun a b => a.timestamp ≠ b.timestamp) := by
  induction l with
  | nil => simp [dedupKeepLast]
  | cons c rest ih =>
    rw [dedupKeepLast]
    by_cases h : (rest.any (fun d => d.timestamp == c.timestamp)) = true
    · rw [if_pos h]; exact ih
    · rw [if_neg h]
      refine List.pairwise_cons.mpr ⟨?_, ih⟩
      intro b hb hEq
      have hbr : b ∈ rest := (dedupKeepLast_sublist rest).subset hb
      have h' : rest.any (fun d => d.timestamp == c.timestamp) = false :=
        Bool.eq_false_iff.mpr h
      rw [List.any_eq_false] at h'
      exact h' b hbr (beq_iff_eq.mpr hEq.symm)

theorem keyRows_dedupKeepLast (t : Int) (l : List Candle) :
    keyRows t (dedupKeepLast l) = (keyRows t l).getLast?.toList := by
  induction l with
  | nil => rfl
  | cons c rest ih =>
    rw [dedupKeepLast]
    by_cases h : (rest.any (fun d => d.timestamp == c.timestamp)) = true
    · rw [if_pos h, ih, keyRows_cons]
      by_cases hct : (c.timestamp == t) = true
      · rw [if_pos hct]
        have hne : keyRows t rest ≠ [] := by
          rcases List.any_eq_true.mp h with ⟨d, hd, hdc⟩
          refine List.ne_nil_of_mem (a := d) ?_
          simp only [keyRows, List.mem_filter]
          exact ⟨hd, beq_iff_eq.mpr ((beq_iff_eq.mp hdc).trans (beq_iff_eq.mp hct))⟩
        obtain ⟨y, ys, hys⟩ := List.exists_cons_of_ne_nil hne
        rw [hys, List.getLast?_cons_cons]
      · rw [if_neg hct]
    · rw [if_neg h]
      have h' : rest.any (fun d => d.timestamp == c.timestamp) = false :=
        Bool.eq_false_iff.mpr h
      rw [List.any_eq_false] at h'
      rw [keyRows_cons, keyRows_cons]
      by_cases hct : (c.timestamp == t) = true
      · have hrest : keyRows t rest = [] := by
          simp only [keyRows, List.filter_eq_nil_iff]
          intro a ha hat
          exact h' a ha (beq_iff_eq.mpr ((beq_iff_eq.mp hat).trans (beq_iff_eq.mp hct).symm))
        have hdrest : keyRows t (dedupKeepLast rest) = [] := by
          rw [ih, hrest]
          rfl
        rw [if_pos hct, if_pos hct, hdrest, hrest]
        rfl
      · rw [if_neg hct, if_neg hct, ih]

theorem dedupKeepLast_length_le (l : List Candle) :
    (dedupKeepLast l).length ≤ l.length :=
  (dedupKeepLast_sublist l).length_le

theorem dedupKeepLast_length_eq_iff (l : List Candle) :
    (dedupKeepLast l).length = l.length ↔
      l.Pairwise (fun a b => a.timestamp ≠ b.timestamp) := by
  induction l with
  | nil => simp [dedupKeepLast]
  | cons c rest ih =>
    rw [dedupKeepLast]
    by_cases h : (rest.any (fun d => d.timestamp == c.timestamp)) = true
    · rw [if_pos h]
      constructor
      · intro hlen
        exfalso
        have hle := dedupKeepLast_length_le rest
        rw [hlen] at hle
        simp at hle
      · intro hp
        exfalso
        rcases List.any_eq_true.mp h with ⟨d, hd, hdc⟩
        exact (List.pairwise_cons.mp hp).1 d hd (beq_iff_eq.mp hdc).symm
    · rw [if_neg h]
      have h' : rest.any (fun d => d.timestamp == c.timestamp) = false :=
        Bool.eq_false_iff.mpr h
      rw [List.any_eq_false] at h'
      simp only [List.length_cons]
      constructor
      · intro hlen
        refine List.pairwise_cons.mpr ⟨?_, ih.mp (Nat.succ_injective hlen)⟩
        intro b hb hEq
        exact h' b hb (beq_iff_eq.mpr hEq.symm)
      · intro hp
        exact congrArg Nat.succ (ih.mpr (List.pairwise_cons.mp hp).2)

theorem dedupKeepLast_eq_nil_iff (l : List Candle) : dedupKeepLast l = [] ↔ l = [] := by
  induction l with
  | nil => simp [dedupKeepLast]
  | cons c rest ih =>
    rw [dedupKeepLast]
    by_cases h : (rest.any (fun d => d.timestamp == c.timestamp)) = true
    · rw [if_pos h]
      rcases List.any_eq_true.mp h with ⟨d, hd, _⟩
      constructor
      · intro hnil
        exact absurd (ih.mp hnil) (List.ne_nil_of_mem hd)
      · intro hc
        exact absurd hc (List.cons_ne_nil c rest)
    · rw [if_neg h]
      simp

theorem sortByTs_eq_nil_iff (l : List Candle) : sortByTs l = [] ↔ l = [] := by
  constructor
  · intro h
    have hlen := (sortByTs_perm l).length_eq
    rw [h] at hlen
    exact List.length_eq_zero.mp hlen.symm
  · intro h
    subst h
    rfl

theorem flatten_filter_nonempty (dfs : List (List Candle)) :
    (dfs.filter (fun d => !d.isEmpty)).flatten = dfs.flatten := by
  induction dfs with
  | nil => rfl
  | cons d ds ih =>
    rw [List.filter_cons]
    by_cases h : d.isEmpty = true
    · have hd : d = [] := List.isEmpty_iff.mp h
      simp [h, hd, ih]
    · simp only [Bool.not_eq_true] at h
      simp [h, ih]

theorem mergeFrames_triple (a b c : List Candle) :
    mergeFrames [a, b, c] = dedupKeepLast (sortByTs (a ++ b ++ c)) := by
  rw [mergeFrames, flatten_filter_nonempty]
  simp [List.append_assoc]

theorem mergeFrames_pair (a b : List Candle) :
    mergeFrames [a, b] = dedupKeepLast (sortByTs (a ++ b)) := by
  rw [mergeFrames, flatten_filter_nonempty]
  simp

theorem mergeFrames_triple_length_le (a b c : List Candle) :
    (mergeFrames [a, b, c]).length ≤ a.length + b.length + c.length := by
  rw [mergeFrames_triple]
  calc (dedupKeepLast (sortByTs (a ++ b ++ c))).length
      ≤ (sortByTs (a ++ b ++ c)).length := dedupKeepLast_length_le _
    _ = (a ++ b ++ c).length := (sortByTs_perm _).length_eq
    _ = a.length + b.length + c.length := by
      simp only [List.length_append]

theorem mergeFrames_triple_length_eq_iff (a b c : List Candle) :
    (mergeFrames [a, b, c]).length = a.length + b.length + c.length ↔
      (a ++ b ++ c).Pairwise (fun x y => x.timestamp ≠ y.timestamp) := by
  rw [mergeFrames_triple]
  have hlen : a.length + b.length + c.length = (sortByTs (a ++ b ++ c)).length := by
    rw [(sortByTs_perm _).length_eq]
    simp only [List.length_append]
  rw [hlen, dedupKeepLast_length_eq_iff]
  exact (sortByTs_perm (a ++ b ++ c)).pairwise_iff (fun h => Ne.symm h)

theorem mergeFrames_triple_eq_nil_iff (a b c : List Candle) :
    mergeFrames [a, b, c] = [] ↔ a = [] ∧ b = [] ∧ c = [] := by
  rw [mergeFrames_triple, dedupKeepLast_eq_nil_iff, sortByTs_eq_nil_iff]
  simp

/-- A one-row raw response carrying the given timestamp. -/
def rawAt (n : Int) : Raw := ⟨n, 1, 1, 1, 1, none⟩

/-- A wire that always answers with one row. -/
def netOne : Int → Int → List Raw := fun _ _ => [rawAt 0]

/-- A one-instrument inventory: AAPL is HYBRID, everything else is absent. -/
def dbMap1 : String → Option Rules := fun t =>
  if t = "AAPL" then some ⟨"AAPL", "HYBRID"⟩ else none

/-- Concrete session windows (UTC minutes): pre 100-430, regular 430-820,
post 820-1060, with the clock at 1000. -/
def w1 : Windows := ⟨100, 430, 820, 1060⟩

/-- Environment with no credential, an empty wire and a one-row Yahoo result. -/
def envNoCst : Env := ⟨false, 1000, fun _ _ _ => [], fun _ => [rawAt 500]⟩

/-- Environment with a credential but both providers empty. -/
def envFail : Env := ⟨true, 1000, fun _ _ _ => [], fun _ => []⟩

/-- Environment with a credential, an empty wire and a one-row Yahoo result. -/
def envYes : Env := ⟨true, 1000, fun _ _ _ => [], fun _ => [rawAt 500]⟩

/-- C3 counterexample: for the fully future window 1200-1300 at clock 1000,
the window after both clamps is inverted (clamped start 1200, clamped end
1000), yet fetch_capital_data_range issues the network request and returns
its non-empty payload instead of returning empty without a call. -/
theorem capFetch_guard_cex :
    clampStart 1000 1200 ≥ clampEnd 1000 1300
    ∧ (fetch_capital_data_range netOne 1000 1200 1300).netCalled = true
    ∧ (fetch_capital_data_range netOne 1000 1200 1300).rows ≠ [] := by
  refine ⟨by decide, by decide, by decide⟩

/-- C3 (amended): the empty-or-inverted guard of fetch_capital_data_range
compares the start-clamped start against the unclamped requested end and
runs before the end clamp: when clampStart now s is at least e the fetch
returns empty without a network call, and otherwise a network call is always
issued over the window from clampStart now s to clampEnd now e, even when
the end clamp has inverted that window. -/
theorem capFetch_guard_amended (net : Int → Int → List Raw) (now s e : Int) :
    (clampStart now s ≥ e → fetch_capital_data_range net now s e = ⟨[], false⟩)
    ∧ (clampStart now s < e →
        fetch_capital_data_range net now s e =
          ⟨net (clampStart now s) (clampEnd now e), true⟩) := by
  constructor
  · intro h
    simp only [fetch_capital_data_range]
    rw [if_pos h]
  · intro h
    simp only [fetch_capital_data_range]
    rw [if_neg (not_le.mpr h)]

/-- Witness for the amended guard theorem at concrete windows. -/
theorem capFetch_guard_amended_witness :
    fetch_capital_data_range netOne 1000 900 500 = ⟨[], false⟩
    ∧ fetch_capital_data_range netOne 1000 500 900 = ⟨netOne 500 900, true⟩ :=
  ⟨(capFetch_guard_amended netOne 1000 900 500).1 (by decide),
   (capFetch_guard_amended netOne 1000 500 900).2 (by decide)⟩

/-- C5: a request window whose end lies strictly before the 16-hour lookback
horizon yields an empty Broker Adapter result without a network call: the
start clamp moves the start to the horizon boundary plus one minute, the
window is then inverted, and the guard returns before any request. -/
theorem capFetch_old_window_empty (net : Int → Int → List Raw) (now s e : Int)
    (h : e < now - lookbackMinutes) :
    fetch_capital_data_range net now s e = ⟨[], false⟩ := by
  have hcl : clampStart now s ≥ e := by
    rw [clampStart]
    by_cases hs : s < now - lookbackMinutes
    · rw [if_pos hs]; omega
    · rw [if_neg hs]; omega
  simp only [fetch_capital_data_range]
  rw [if_pos hcl]

/-- Witness for the lookback theorem: a window 16-plus hours in the past. -/
theorem capFetch_old_window_empty_witness :
    fetch_capital_data_range netOne 1000 (-500) (-100) = ⟨[], false⟩ :=
  capFetch_old_window_empty netOne 1000 (-500) (-100) (by decide)

/-- C4: the per-instrument merge of the three session frames contains no two
candles sharing the (symbol, timestamp) key, is sorted by timestamp
ascending, and for every timestamp key keeps exactly the last-occurring row
of the concatenated, fetch-ordered frames. -/
theorem merge_no_duplicate_keys (pre reg post : List Candle) (t : Int) :
    (mergeFrames [pre, reg, post]).Pairwise
      (fun a b => ¬ (a.symbol = b.symbol ∧ a.timestamp = b.timestamp))
    ∧ (mergeFrames [pre, reg, post]).Pairwise (fun a b => a.timestamp ≤ b.timestamp)
    ∧ keyRows t (mergeFrames [pre, reg, post]) =
        ((keyRows t (pre ++ reg ++ post)).getLast?).toList := by
  refine ⟨?_, ?_, ?_⟩
  · rw [mergeFrames_triple]
    exact (dedupKeepLast_pairwise _).imp (fun hne hab => hne hab.2)
  · rw [mergeFrames_triple]
    exact (sortByTs_sorted _).sublist (dedupKeepLast_sublist _)
  · rw [mergeFrames_triple, keyRows_dedupKeepLast, keyRows_sortByTs]

/-- Status computation at merged total zero: always the Failed icon. -/
theorem statusIconHarv_total_zero (mode modeStr : String) (pre reg post : Nat) :
    statusIconHarv mode modeStr pre reg post 0 = "❌ Failed" := by
  have hne : (("❌ Failed" : String) == "✅ Complete") = false := by decide
  simp [statusIconHarv, hne]

/-- C6: in every mode, a per-instrument report row whose merged total is
zero has status exactly Failed; neither the gap classification nor the
fallback-qualified complete variant replaces it. -/
theorem failed_overrides_all (env : Env) (ticker : String) (rules : Rules)
    (w : Windows) (mode : String)
    (h : ((processTickerHarv env ticker rules w mode).1).total = 0) :
    ((processTickerHarv env ticker rules w mode).1).status = "❌ Failed" := by
  simp only [processTickerHarv] at h ⊢
  rw [h]
  exact statusIconHarv_total_zero _ _ _ _ _

/-- Witness for the Failed-priority theorem: an environment where every
provider is empty, so the merged total is zero. -/
theorem failed_overrides_all_witness :
    ((processTickerHarv envFail "AAPL" ⟨"AAPL", "HYBRID"⟩ w1 "🚀 Full Day").1).status
      = "❌ Failed" :=
  failed_overrides_all envFail "AAPL" ⟨"AAPL", "HYBRID"⟩ w1 "🚀 Full Day" (by decide)

/-- C7: under Full Day mode with observed counts pre 0, reg 400, post 0 and
a positive merged total, the status is exactly Gappy (Pre, Post): pre and
post are below 90 percent of 330 and 240, reg is not below 90 percent of
390, and the positive total blocks the Failed classification. -/
theorem gappy_pre_post_classification (total : Nat) (modeStr : String)
    (h : 0 < total) :
    statusIconHarv "🚀 Full Day" modeStr 0 400 0 total = "⚠️ Gappy (Pre, Post)" := by
  have h0 : total ≠ 0 := Nat.pos_iff_ne_zero.mp h
  have hbase : (if total = 0 then "❌ Failed"
      else if (gapsHarv "🚀 Full Day" 0 400 0).isEmpty then "✅ Complete"
      else "⚠️ Gappy (" ++ String.intercalate ", " (gapsHarv "🚀 Full Day" 0 400 0) ++ ")")
        = "⚠️ Gappy (Pre, Post)" := by
    rw [if_neg h0]
    decide
  have hne : (("⚠️ Gappy (Pre, Post)" : String) == "✅ Complete") = false := by decide
  simp only [statusIconHarv]
  rw [hbase, hne]
  simp

/-- Witness for the Gappy classification at total 400 with the primary
provenance label. -/
theorem gappy_pre_post_classification_witness :
    statusIconHarv "🚀 Full Day" "HYBRID (Yahoo)" 0 400 0 400 = "⚠️ Gappy (Pre, Post)" :=
  gappy_pre_post_classification 400 "HYBRID (Yahoo)" (by decide)

/-- C8: for a HYBRID instrument whose regular session is attempted, the
Broker Adapter fetch over the regular window happens only when the Yahoo
primary result is empty; a non-empty primary result leaves no Capital.com
call in the regular phase and the provenance label HYBRID (Yahoo); with an
empty primary and a session token the fallback call over the same regular
window is issued. -/
theorem hybrid_fallback_only_when_primary_empty (env : Env) (ticker epic : String)
    (w : Windows) (mode : String)
    (h1 : mode ≠ "🌙 Pre-Market Only") (h2 : mode ≠ "🌆 Post-Market Only") :
    ((w.pmEnd, w.regEnd) ∈ (regResultHarv env ticker epic "HYBRID" w mode).capCalls →
      env.yahoo ticker = [])
    ∧ (env.yahoo ticker ≠ [] →
        (regResultHarv env ticker epic "HYBRID" w mode).capCalls = []
        ∧ (regResultHarv env ticker epic "HYBRID" w mode).modeStr = "HYBRID (Yahoo)")
    ∧ (env.yahoo ticker = [] → env.cst = true →
        (regResultHarv env ticker epic "HYBRID" w mode).capCalls
          = [(w.pmEnd, w.regEnd)]) := by
  have hm : ¬ (mode = "🌙 Pre-Market Only" ∨ mode = "🌆 Post-Market Only") := by
    rintro (h | h)
    · exact h1 h
    · exact h2 h
  have hcap : ¬ (("HYBRID" : String) = "CAPITAL_ONLY") := by decide
  simp only [regResultHarv, if_neg hm, if_neg hcap]
  by_cases hy : (env.yahoo ticker).isEmpty = true
  · have hynil : env.yahoo ticker = [] := List.isEmpty_iff.mp hy
    simp only [hy, Bool.not_true, if_neg (by decide : ¬ (false = true))]
    refine ⟨fun _ => hynil, fun hne => absurd hynil hne, fun _ hcst => ?_⟩
    rw [if_pos hcst]
    by_cases hfb : (capFetchRows env epic w.pmEnd w.regEnd).isEmpty = true
    · simp [hfb]
    · simp [hfb]
  · have hynil : env.yahoo ticker ≠ [] := by
      intro hEq
      exact hy (by rw [hEq]; rfl)
    simp only [Bool.not_eq_true] at hy
    simp only [hy, Bool.not_false, if_pos rfl]
    refine ⟨fun hmem => ?_, fun _ => ⟨rfl, rfl⟩, fun hEq _ => absurd hEq hynil⟩
    exact absurd hmem (List.not_mem_nil _)

/-- Witness for the fallback-gating theorem: empty primary with a token
issues exactly the regular-window fallback call. -/
theorem hybrid_fallback_only_when_primary_empty_witness :
    (regResultHarv envFail "AAPL" "AAPL" "HYBRID" w1 "🚀 Full Day").capCalls
      = [(w1.pmEnd, w1.regEnd)] :=
  (hybrid_fallback_only_when_primary_empty envFail "AAPL" "AAPL" w1 "🚀 Full Day"
    (by decide) (by decide)).2.2 (by decide) (by decide)

/-- C2: evaluation at the failing input.  With a session token present, a
HYBRID instrument, an empty Yahoo primary result, and an empty Capital.com
fallback over the regular window 430-820, the modular orchestrator in
src/src/data/harvester.py leaves the provenance label at the bare strategy
value HYBRID with an empty regular frame, while the monolithic orchestrator
in core_logic.py records HYBRID (Failed) at the same input. -/
theorem hybrid_failed_label_eval :
    (regResultHarv envFail "AAPL" "AAPL" "HYBRID" w1 "🚀 Full Day").modeStr = "HYBRID"
    ∧ (regResultHarv envFail "AAPL" "AAPL" "HYBRID" w1 "🚀 Full Day").df = []
    ∧ (regResultHarv envFail "AAPL" "AAPL" "HYBRID" w1 "🚀 Full Day").capCalls
        = [(430, 820)]
    ∧ (regResultCore envFail "AAPL" "AAPL" "HYBRID" w1 "🚀 Full Day").modeStr
        = "HYBRID (Failed)"
    ∧ (regResultCore envFail "AAPL" "AAPL" "HYBRID" w1 "🚀 Full Day").df = [] := by
  refine ⟨by decide, by decide, by decide, by decide, by decide⟩

/-- C1 counterexample: a Regular-Session-Only run over one HYBRID instrument
with no credential.  The modular orchestrator returns the empty abort pair,
although its own loop body at the same input would produce a report row and
candles, so the run does not proceed as the claim requires. -/
theorem credential_requirement_cex :
    harvRun envNoCst ["AAPL"] dbMap1 w1 "☀️ Regular Session Only" = ([], [])
    ∧ harvLoop envNoCst dbMap1 w1 "☀️ Regular Session Only" ["AAPL"] ≠ ([], []) := by
  refine ⟨by decide, by decide⟩

/-- Selected-inventory check used in the amended credential claim: the
ticker is absent from the inventory or its strategy is not CAPITAL_ONLY. -/
def strategyNotCapOnly (o : Option Rules) : Bool :=
  match o with
  | none => true
  | some r => !(r.strategy == "CAPITAL_ONLY")

/-- C1 (amended): the modular orchestrator hard-codes need_capital, so every
run with a missing credential aborts with empty outputs regardless of mode
and strategies; the monolithic core_logic.py orchestrator implements the
claimed condition: with a missing credential it aborts exactly when
need_capital holds, and a Regular-Session-Only run whose selected
in-inventory instruments all avoid CAPITAL_ONLY proceeds to the instrument
loop. -/
theorem credential_requirement_amended :
    (∀ (env : Env) (tks : List String) (m : String → Option Rules) (w : Windows)
        (mode : String), env.cst = false → harvRun env tks m w mode = ([], []))
    ∧ (∀ (env : Env) (tks : List String) (m : String → Option Rules) (w : Windows)
        (mode : String), env.cst = false → coreNeedCapital tks m mode = true →
          coreRun env tks m w mode = ([], []))
    ∧ (∀ (env : Env) (tks : List String) (m : String → Option Rules) (w : Windows),
        env.cst = false → (∀ t ∈ tks, strategyNotCapOnly (m t) = true) →
          coreRun env tks m w "☀️ Regular Session Only" =
            coreLoop env m w "☀️ Regular Session Only" tks) := by
  refine ⟨?_, ?_, ?_⟩
  · intro env tks m w mode hcst
    simp [harvRun, hcst]
  · intro env tks m w mode hcst hneed
    simp [coreRun, hcst, hneed]
  · intro env tks m w hcst hall
    have hsub : strHasSub "☀️ Regular Session Only" "Regular Session Only" = true := by
      decide
    have hany : (tks.any (fun t =>
        match m t with
        | some r => r.strategy == "CAPITAL_ONLY"
        | none => false)) = false := by
      rw [List.any_eq_false]
      intro t ht
      have hthis := hall t ht
      cases hmt : m t with
      | none => simp [hmt]
      | some r =>
        simp only [strategyNotCapOnly, hmt] at hthis
        simp only [hmt]
        simp only [Bool.not_eq_true'] at hthis
        simp [hthis]
    have hneed : coreNeedCapital tks m "☀️ Regular Session Only" = false := by
      rw [coreNeedCapital, hsub, hany]
      rfl
    simp [coreRun, hneed]

/-- Witness for the amended credential claim at a concrete run: the modular
orchestrator aborts without a credential; the monolithic one proceeds to the
loop for a Regular-Session-Only all-HYBRID run. -/
theorem credential_requirement_amended_witness :
    harvRun envNoCst ["AAPL"] dbMap1 w1 "🚀 Full Day" = ([], [])
    ∧ coreRun envNoCst ["AAPL"] dbMap1 w1 "☀️ Regular Session Only" =
        coreLoop envNoCst dbMap1 w1 "☀️ Regular Session Only" ["AAPL"] :=
  ⟨credential_requirement_amended.1 envNoCst ["AAPL"] dbMap1 w1 "🚀 Full Day" rfl,
   credential_requirement_amended.2.2 envNoCst ["AAPL"] dbMap1 w1 rfl (by decide)⟩

/-- C9: a requested ticker absent from the inventory contributes nothing:
the instrument loop and the run produce identical candle and report outputs
with and without it. -/
theorem unknown_ticker_no_effect (env : Env) (l1 l2 : List String) (t : String)
    (dbMap : String → Option Rules) (w : Windows) (mode : String)
    (h : dbMap t = none) :
    harvLoop env dbMap w mode (l1 ++ t :: l2) = harvLoop env dbMap w mode (l1 ++ l2)
    ∧ harvRun env (l1 ++ t :: l2) dbMap w mode = harvRun env (l1 ++ l2) dbMap w mode := by
  have hloop : harvLoop env dbMap w mode (l1 ++ t :: l2)
      = harvLoop env dbMap w mode (l1 ++ l2) := by
    induction l1 with
    | nil =>
      simp only [List.nil_append, harvLoop, h]
    | cons a l1 ih =>
      simp only [List.cons_append, harvLoop, List.append_eq, ih]
  exact ⟨hloop, by simp only [harvRun, hloop]⟩

/-- Witness for the skipped-ticker theorem: ZZZ is not in the inventory. -/
theorem unknown_ticker_no_effect_witness :
    harvRun envYes ["ZZZ", "AAPL"] dbMap1 w1 "🚀 Full Day" =
      harvRun envYes ["AAPL"] dbMap1 w1 "🚀 Full Day" :=
  (unknown_ticker_no_effect envYes [] ["AAPL"] "ZZZ" dbMap1 w1 "🚀 Full Day"
    (by decide)).2

/-- Per-instrument bound: the merged total never exceeds the sum of the
per-session counts taken before deduplication. -/
theorem processTickerHarv_total_le (env : Env) (ticker : String) (rules : Rules)
    (w : Windows) (mode : String) :
    ((processTickerHarv env ticker rules w mode).1).total ≤
      ((processTickerHarv env ticker rules w mode).1).pre
      + ((processTickerHarv env ticker rules w mode).1).reg
      + ((processTickerHarv env ticker rules w mode).1).post := by
  simp only [processTickerHarv]
  exact mergeFrames_triple_length_le _ _ _

/-- Every report row of the instrument loop satisfies the total bound. -/
theorem harvLoop_row_total_le (env : Env) (dbMap : String → Option Rules)
    (w : Windows) (mode : String) (tks : List String) (r : ReportRow)
    (hr : r ∈ (harvLoop env dbMap w mode tks).2) :
    r.total ≤ r.pre + r.reg + r.post := by
  induction tks with
  | nil => simp [harvLoop] at hr
  | cons t ts ih =>
    cases hmt : dbMap t with
    | none =>
      simp only [harvLoop, hmt] at hr
      exact ih hr
    | some rules =>
      simp only [harvLoop, hmt] at hr
      rcases List.mem_cons.mp hr with rfl | hr2
      · exact processTickerHarv_total_le env t rules w mode
      · exact ih hr2

/-- C10: for every instrument, the merged total is at most the sum of the
per-session counts, with equality exactly when the concatenated session
frames share no duplicate timestamp; the total is zero exactly when all
three frames are empty; and every row of the run report satisfies the
bound. -/
theorem report_total_bounds (env : Env) (ticker : String) (rules : Rules)
    (w : Windows) (mode : String) :
    (((processTickerHarv env ticker rules w mode).1).total ≤
        ((processTickerHarv env ticker rules w mode).1).pre
        + ((processTickerHarv env ticker rules w mode).1).reg
        + ((processTickerHarv env ticker rules w mode).1).post
      ∧ (((processTickerHarv env ticker rules w mode).1).total =
          ((processTickerHarv env ticker rules w mode).1).pre
          + ((processTickerHarv env ticker rules w mode).1).reg
          + ((processTickerHarv env ticker rules w mode).1).post ↔
            (preFrameHarv env ticker rules.epic w mode
              ++ (regResultHarv env ticker rules.epic rules.strategy w mode).df
              ++ postFrameHarv env ticker rules.epic w mode).Pairwise
              (fun a b => a.timestamp ≠ b.timestamp))
      ∧ (((processTickerHarv env ticker rules w mode).1).total = 0 ↔
          preFrameHarv env ticker rules.epic w mode = []
          ∧ (regResultHarv env ticker rules.epic rules.strategy w mode).df = []
          ∧ postFrameHarv env ticker rules.epic w mode = []))
    ∧ (∀ (tks : List String) (dbMap : String → Option Rules) (r : ReportRow),
        r ∈ (harvRun env tks dbMap w mode).2 → r.total ≤ r.pre + r.reg + r.post) := by
  refine ⟨⟨processTickerHarv_total_le env ticker rules w mode, ?_, ?_⟩, ?_⟩
  · simp only [processTickerHarv]
    exact mergeFrames_triple_length_eq_iff _ _ _
  · simp only [processTickerHarv]
    rw [List.length_eq_zero, mergeFrames_triple_eq_nil_iff]
  · intro tks dbMap r hr
    by_cases hc : env.cst = true
    · simp only [harvRun, hc, Bool.not_true, if_neg (by decide : ¬ (false = true))] at hr
      exact harvLoop_row_total_le env dbMap w mode tks r hr
    · simp only [Bool.not_eq_true] at hc
      simp [harvRun, hc] at hr

/-- Witness for the report-total bound at a concrete run row. -/
theorem report_total_bounds_witness :
    (⟨"AAPL", "HYBRID (Yahoo)", 0, 1, 0, 1,
        "⚠️ Gappy (Pre, Reg, Post)"⟩ : ReportRow).total ≤ 0 + 1 + 0 :=
  (report_total_bounds envYes "AAPL" ⟨"AAPL", "HYBRID"⟩ w1 "🚀 Full Day").2
    ["AAPL"] dbMap1 _ (by decide)

end DataHarvester
